import Mathlib

/-!
Shallow embedding of the communication-matrix core (package `types` of the
commatrix repository) and proofs about its operations.

Conventions used throughout:
* Go strings are Lean `String`s.  Go compares strings bytewise on their UTF-8
  encoding; since UTF-8 preserves code-point order, this coincides with
  lexicographic comparison of the character (code-point) sequence, which is
  what the comparison functions below implement.
* Go `int` is `Int`; Go `fmt.Sprint`/`%d` on an `int` is `toString : Int → String`
  (decimal digits, `-` sign for negatives), and `%v` on a `bool` is
  `toString : Bool → String` (`"true"` / `"false"`).
* Methods that mutate their receiver in place (`sort`, `deleteDuplicates`,
  `CleanComDetails`) are embedded as functions returning the new matrix.
* Fallible Go functions returning `(T, error)` become `Except String T`.
-/

/-- Embeds the struct `ComDetails`: one flow record with its metadata. -/
structure ComDetails where
  Direction : String
  Protocol : String
  Port : Int
  Namespace : String
  Service : String
  Pod : String
  Container : String
  NodeRole : String
  Optional : Bool
deriving DecidableEq, Inhabited

/-- Embeds the struct `ComMatrix`: an ordered collection of flow records. -/
structure ComMatrix where
  Matrix : List ComDetails
deriving DecidableEq

/-- Embeds the identity key `fmt.Sprintf("%s-%d-%s", NodeRole, Port, Protocol)`
used by both `ComDetails.Equals` and `ComMatrix.deleteDuplicates`. -/
def cdKey (cd : ComDetails) : String :=
  cd.NodeRole ++ "-" ++ toString cd.Port ++ "-" ++ cd.Protocol

/-- Embeds `ComDetails.Equals`: formats the `(NodeRole, Port, Protocol)` key of
both records as strings and compares the strings. -/
def ComDetails.Equals (cd other : ComDetails) : Bool :=
  cdKey cd == cdKey other

/-- Embeds `ComDetails.String`: all nine fields joined with commas
(`fmt.Sprintf("%s,%s,%d,%s,%s,%s,%s,%s,%v", ...)`). -/
def cdString (cd : ComDetails) : String :=
  String.intercalate ","
    [cd.Direction, cd.Protocol, toString cd.Port, cd.Namespace, cd.Service,
     cd.Pod, cd.Container, cd.NodeRole, toString cd.Optional]

/-- Embeds `ComMatrix.Contains`: linear scan with `ComDetails.Equals`. -/
def ComMatrix.Contains (m : ComMatrix) (cd : ComDetails) : Bool :=
  m.Matrix.any (fun cd1 => cd1.Equals cd)

/-- Embeds Go `cmp.Compare` on strings (`-1` / `0` / `1`), as lexicographic
comparison of the character sequences (equivalent to Go's bytewise comparison
of the UTF-8 encodings, since UTF-8 preserves code-point order). -/
def goCompareChars : List Char → List Char → Int
  | [], [] => 0
  | [], _ :: _ => -1
  | _ :: _, [] => 1
  | a :: as, b :: bs => if a < b then -1 else if b < a then 1 else goCompareChars as bs

/-- Embeds Go `cmp.Compare` on two strings. -/
def goCompareString (a b : String) : Int :=
  goCompareChars a.data b.data

/-- Embeds Go `cmp.Compare` on two ints. -/
def goCompareInt (a b : Int) : Int :=
  if a < b then -1 else if b < a then 1 else 0

/-- Embeds the comparison closure passed to `slices.SortFunc` in
`ComMatrix.sort`: compare `NodeRole`, then `Protocol`, then `Port`. -/
def compareCD (a b : ComDetails) : Int :=
  let res := goCompareString a.NodeRole b.NodeRole
  if res ≠ 0 then res
  else
    let res2 := goCompareString a.Protocol b.Protocol
    if res2 ≠ 0 then res2
    else goCompareInt a.Port b.Port

/-- Boolean `≤` relation induced by `compareCD`; `slices.SortFunc` establishes
exactly this relation between consecutive elements of its output. -/
def cdLE (a b : ComDetails) : Bool :=
  decide (compareCD a b ≤ 0)

/-- Embeds the effect of `slices.SortFunc(m.Matrix, ...)` at the level of the
standard library's contract: the output is a permutation of the input that is
sorted ascending by the comparator.  (Go's `slices.SortFunc` documents exactly
this and explicitly does *not* guarantee stability; the exact Go algorithm,
pattern-defeating quicksort, is embedded separately below as `goSortFunc` and
is used to settle the stability question.) -/
def sortList (l : List ComDetails) : List ComDetails :=
  l.mergeSort cdLE

/-- Embeds `ComMatrix.sort` (in-place in Go; returns the new matrix here). -/
def ComMatrix.sort (m : ComMatrix) : ComMatrix :=
  { Matrix := sortList m.Matrix }

/-- Embeds `ComMatrix.combine`: start from `m.Matrix`, append every record of
`other` that `m` does not contain, then sort. -/
def ComMatrix.combine (m other : ComMatrix) : ComMatrix :=
  let combinedComDetails := m.Matrix ++ other.Matrix.filter (fun cd => !(m.Contains cd))
  ComMatrix.sort { Matrix := combinedComDetails }

/-- Embeds the loop body of `ComMatrix.deleteDuplicates`: walk the records in
order, keeping a record iff its `cdKey` was not seen before (the Go version
keeps the seen keys in a `map[string]bool`; only membership is ever queried,
so a list of seen keys is an exact model). -/
def dedupFrom : List String → List ComDetails → List ComDetails
  | _, [] => []
  | seen, item :: rest =>
    if seen.contains (cdKey item) then dedupFrom seen rest
    else item :: dedupFrom (cdKey item :: seen) rest

/-- Embeds `ComMatrix.deleteDuplicates` (in-place in Go). -/
def ComMatrix.deleteDuplicates (m : ComMatrix) : ComMatrix :=
  { Matrix := dedupFrom [] m.Matrix }

/-- Embeds `ComMatrix.CleanComDetails`: delete duplicates, then sort. -/
def ComMatrix.CleanComDetails (m : ComMatrix) : ComMatrix :=
  ComMatrix.sort (ComMatrix.deleteDuplicates m)

/-- Model of Go's `map[string]int`: only `m[k] = v` (insert/overwrite) and
value lookup are ever used on it, so a function `String → Option Int` is an
exact model. -/
def mapSet (mp : String → Option Int) (k : String) (v : Int) : String → Option Int :=
  fun s => if s = k then some v else mp s

/-- Lookup in the map model with Go's zero-value-on-missing-key semantics. -/
def mapGetD (mp : String → Option Int) (k : String) : Int :=
  (mp k).getD 0

/-- First loop of `ComMatrix.markDiffBetweenMatrices`: map each record of the
receiver (keyed by its full `String()` rendering) to `0` if `other` contains
it and `1` otherwise. -/
def markLoop1 (other : ComMatrix) : (String → Option Int) → List ComDetails → (String → Option Int)
  | acc, [] => acc
  | acc, cd :: rest =>
    markLoop1 other (mapSet acc (cdString cd) (if other.Contains cd then 0 else 1)) rest

/-- Second loop of `ComMatrix.markDiffBetweenMatrices`: map each record of
`other` that is not a `rpc.statd` service (those are skipped by `continue`)
and is not contained in `m` to `-1`. -/
def markLoop2 (m : ComMatrix) : (String → Option Int) → List ComDetails → (String → Option Int)
  | acc, [] => acc
  | acc, cd :: rest =>
    markLoop2 m
      (if cd.Service = "rpc.statd" then acc
       else if m.Contains cd then acc
       else mapSet acc (cdString cd) (-1))
      rest

/-- Embeds `ComMatrix.markDiffBetweenMatrices`: run the two loops in order on
an initially empty map. -/
def ComMatrix.markDiffBetweenMatrices (m other : ComMatrix) : String → Option Int :=
  markLoop2 m (markLoop1 other (fun _ => none) m.Matrix) other.Matrix

/-- Sign that `GenerateMatrixDiff` reads for a record: map lookup with Go's
zero default. -/
def diffSign (m other : ComMatrix) (cd : ComDetails) : Int :=
  mapGetD (m.markDiffBetweenMatrices other) (cdString cd)

/-- Line that the `switch` in `GenerateMatrixDiff` emits for a record of the
combined matrix: `+`-prefixed for sign `1`, `-`-prefixed for sign `-1`, bare
for sign `0` (values outside the three cases would emit nothing, exactly as a
Go `switch` without a `default`). -/
def diffLine (m other : ComMatrix) (cd : ComDetails) : String :=
  let sign := diffSign m other cd
  if sign = 1 then "+ " ++ cdString cd ++ "\n"
  else if sign = -1 then "- " ++ cdString cd ++ "\n"
  else if sign = 0 then cdString cd ++ "\n"
  else ""

/-- Embeds the struct-tag table of `ComDetails` used by the reflection in
`getComMatrixHeadersByFormat`: for each field in declaration order, its
`json`, `yaml` and `csv` tags. -/
def comDetailsFieldTags : List (String × String × String) :=
  [("direction", "direction", "Direction"),
   ("protocol", "protocol", "Protocol"),
   ("port", "port", "Port"),
   ("namespace", "namespace", "Namespace"),
   ("service", "service", "Service"),
   ("pod", "pod", "Pod"),
   ("container", "container", "Container"),
   ("nodeRole", "nodeRole", "Node Role"),
   ("optional", "optional", "Optional")]

/-- Tag lookup standing for Go's `field.Tag.Get(format)` (empty string when
the format is not one of the three tag keys present on every field). -/
def tagGet (format : String) (tags : String × String × String) : String :=
  if format = "json" then tags.1
  else if format = "yaml" then tags.2.1
  else if format = "csv" then tags.2.2
  else ""

/-- Embeds `getComMatrixHeadersByFormat`: join the per-field tags of the given
format with commas; error if some field lacks a tag for the format.  (The Go
error message interpolates the reflected `StructField` value; the model error
message keeps only its fixed text.) -/
def getComMatrixHeadersByFormat (format : String) : Except String String :=
  if (comDetailsFieldTags.map (tagGet format)).all (fun t => t ≠ "") then
    Except.ok (String.intercalate "," (comDetailsFieldTags.map (tagGet format)))
  else
    Except.error ("field has no tag of format " ++ format)

/-- Embeds `ComMatrix.GenerateMatrixDiff`: CSV header line, then one line per
record of the combined matrix, annotated per the sign map. -/
def ComMatrix.GenerateMatrixDiff (m other : ComMatrix) : Except String String :=
  let combinedComMatrix := m.combine other
  match getComMatrixHeadersByFormat "csv" with
  | Except.error e => Except.error ("error getting commatrix CSV tags: " ++ e)
  | Except.ok colNames =>
    Except.ok (colNames ++ "\n" ++ String.join (combinedComMatrix.Matrix.map (diffLine m other)))

/-- Embeds `ComMatrix.Diff`: records of `m` whose identity does not occur in
`other`, in input order, no sort. -/
def ComMatrix.Diff (m other : ComMatrix) : ComMatrix :=
  { Matrix := m.Matrix.filter (fun cd1 => !(other.Matrix.any (fun cd2 => cd1.Equals cd2))) }

/-- CSV field quoting of Go's `encoding/csv` writer (common cases): a field is
quoted iff it is `\.` or contains a comma, double quote, CR or LF, or starts
with a space character; inside quotes, double quotes are doubled.  (Exotic
cases — a custom comma rune, CRLF normalization inside quoted fields — are not
exercised by this code base and are not modelled.) -/
def csvQuoteField (f : String) : String :=
  let needsQuotes : Bool :=
    f != "" &&
      (f == "\\." || f.data.any (fun c => c == ',' || c == '"' || c == '\r' || c == '\n') ||
        (match f.data with
         | [] => false
         | c :: _ => c == ' ' || c == '\t' || c == '\n' || c == '\r'))
  if needsQuotes then
    "\"" ++ String.join (f.data.map (fun c => if c = '"' then "\"\"" else String.singleton c)) ++ "\""
  else f

/-- Record row of the CSV export: the nine field values in declared order. -/
def csvRow (cd : ComDetails) : String :=
  String.intercalate ","
    ((["" ++ cd.Direction, cd.Protocol, toString cd.Port, cd.Namespace, cd.Service,
       cd.Pod, cd.Container, cd.NodeRole, toString cd.Optional]).map csvQuoteField) ++ "\n"

/-- Embeds `ComMatrix.ToCSV`: `gocsv.MarshalCSV` writes the header row built
from the `csv` struct tags followed by one row per record; for this record
type (strings, an int and a bool) marshalling cannot fail, so the Go error
path is dead and the result is always `ok`. -/
def ComMatrix.ToCSV (m : ComMatrix) : Except String String :=
  Except.ok ("Direction,Protocol,Port,Namespace,Service,Pod,Container,Node Role,Optional\n" ++
    String.join (m.Matrix.map csvRow))

/-- String escaping of Go's `encoding/json` marshaller: `"`, `\`, the HTML
characters `<`, `>`, `&`, and control characters are escaped; everything else
is passed through. -/
def jsonEscapeChar (c : Char) : String :=
  if c = '"' then "\\\""
  else if c = '\\' then "\\\\"
  else if c = '\n' then "\\n"
  else if c = '\r' then "\\r"
  else if c = '\t' then "\\t"
  else if c = '<' then "\\u003c"
  else if c = '>' then "\\u003e"
  else if c = '&' then "\\u0026"
  else if c.val < 32 then
    "\\u00" ++ String.singleton (Nat.digitChar (c.toNat / 16)) ++ String.singleton (Nat.digitChar (c.toNat % 16))
  else String.singleton c

/-- JSON string literal for a Go string value. -/
def jsonStr (s : String) : String :=
  "\"" ++ String.join (s.data.map jsonEscapeChar) ++ "\""

/-- One record of the JSON export, pretty-printed at one level of indentation
with the `json` struct-tag field names in declaration order. -/
def jsonRecord (cd : ComDetails) : String :=
  "    \x7b\n" ++
  "        \"direction\": " ++ jsonStr cd.Direction ++ ",\n" ++
  "        \"protocol\": " ++ jsonStr cd.Protocol ++ ",\n" ++
  "        \"port\": " ++ toString cd.Port ++ ",\n" ++
  "        \"namespace\": " ++ jsonStr cd.Namespace ++ ",\n" ++
  "        \"service\": " ++ jsonStr cd.Service ++ ",\n" ++
  "        \"pod\": " ++ jsonStr cd.Pod ++ ",\n" ++
  "        \"container\": " ++ jsonStr cd.Container ++ ",\n" ++
  "        \"nodeRole\": " ++ jsonStr cd.NodeRole ++ ",\n" ++
  "        \"optional\": " ++ toString cd.Optional ++ "\n" ++
  "    \x7d"

/-- Embeds `ComMatrix.ToJSON`: `json.MarshalIndent(m.Matrix, "", "    ")`.
For this record type marshalling cannot fail, so the Go error path is dead.
(A nil Go slice would render as `null`; the list model renders the empty
matrix as the empty array.) -/
def ComMatrix.ToJSON (m : ComMatrix) : Except String String :=
  if m.Matrix = [] then Except.ok "[]"
  else Except.ok ("[\n" ++ String.intercalate ",\n" (m.Matrix.map jsonRecord) ++ "\n]")

/-- Scalar rendering of the YAML export model: empty strings are rendered
quoted, other strings bare.  (The `sigs.k8s.io/yaml` marshaller quotes further
special strings; those cases are not exercised by any claim and are not
modelled.) -/
def yamlStr (s : String) : String :=
  if s = "" then "\"\"" else s

/-- One record of the YAML export: keys are the `json` tag names sorted
alphabetically, as produced by the JSON-to-YAML conversion of
`sigs.k8s.io/yaml` (maps are emitted with sorted keys). -/
def yamlRecord (cd : ComDetails) : String :=
  "- container: " ++ yamlStr cd.Container ++ "\n" ++
  "  direction: " ++ yamlStr cd.Direction ++ "\n" ++
  "  namespace: " ++ yamlStr cd.Namespace ++ "\n" ++
  "  nodeRole: " ++ yamlStr cd.NodeRole ++ "\n" ++
  "  optional: " ++ toString cd.Optional ++ "\n" ++
  "  pod: " ++ yamlStr cd.Pod ++ "\n" ++
  "  port: " ++ toString cd.Port ++ "\n" ++
  "  protocol: " ++ yamlStr cd.Protocol ++ "\n" ++
  "  service: " ++ yamlStr cd.Service ++ "\n"

/-- Embeds `ComMatrix.ToYAML`: `yaml.Marshal(m)` wraps the record array under
the `Matrix` key (the `ComMatrix` field carries no struct tag, so the Go field
name is used); marshalling cannot fail for this type. -/
def ComMatrix.ToYAML (m : ComMatrix) : Except String String :=
  if m.Matrix = [] then Except.ok "Matrix: []\n"
  else Except.ok ("Matrix:\n" ++ String.join (m.Matrix.map yamlRecord))

/-- Text of the nft template before the TCP port list (the `{` of the port set
is preceded by two spaces in the source: `tcp dport  { %s } accept`). -/
def nftTemplatePre : String :=
  "#!/usr/sbin/nft -f\n\n\ttable inet openshift_filter \x7b\n\t\tchain OPENSHIFT \x7b\n\t\t\ttype filter hook input priority 1; policy accept;\n\n\t\t\t# Allow loopback traffic\n\t\t\tiif lo accept\n\t\n\t\t\t# Allow established and related traffic\n\t\t\tct state established,related accept\n\t\n\t\t\t# Allow ICMP on ipv4\n\t\t\tip protocol icmp accept\n\t\t\t# Allow ICMP on ipv6\n\t\t\tip6 nexthdr ipv6-icmp accept\n\n\t\t\t# Allow specific TCP and UDP ports\n\t\t\ttcp dport  \x7b "

/-- Text of the nft template between the TCP and UDP port lists. -/
def nftTemplateMid : String :=
  " \x7d accept\n\t\t\tudp dport \x7b "

/-- Text of the nft template after the UDP port list. -/
def nftTemplateSuf : String :=
  " \x7d accept\n\n\t\t\t# Logging and default drop\n\t\t\tlog prefix \"firewall \" drop\n\t\t\x7d\n\t\x7d"

/-- Embeds the port-collecting loop of `ComMatrix.ToNFTables`: records whose
`Protocol` is exactly `"TCP"` append their port to the TCP list, records whose
`Protocol` is exactly `"UDP"` append to the UDP list, all others are skipped. -/
def nftLoop : List String × List String → List ComDetails → List String × List String
  | acc, [] => acc
  | acc, line :: rest =>
    nftLoop
      (if line.Protocol = "TCP" then (acc.1 ++ [toString line.Port], acc.2)
       else if line.Protocol = "UDP" then (acc.1, acc.2 ++ [toString line.Port])
       else acc)
      rest

/-- The two port lists collected by the loop of `ComMatrix.ToNFTables`,
starting from empty accumulators. -/
def nftPortLists (l : List ComDetails) : List String × List String :=
  nftLoop ([], []) l

/-- Embeds `ComMatrix.ToNFTables`: join both port lists with `", "` and splice
them into the fixed firewall template; the Go function always returns a nil
error. -/
def ComMatrix.ToNFTables (m : ComMatrix) : Except String String :=
  let lists := nftPortLists m.Matrix
  let tcpPortsStr := String.intercalate ", " lists.1
  let udpPortsStr := String.intercalate ", " lists.2
  Except.ok (nftTemplatePre ++ tcpPortsStr ++ nftTemplateMid ++ udpPortsStr ++ nftTemplateSuf)

/-- Embeds `ComMatrix.print`: dispatch on the format tag; unknown tags produce
the `invalid format` error. -/
def ComMatrix.print (m : ComMatrix) (format : String) : Except String String :=
  if format = "json" then m.ToJSON
  else if format = "csv" then m.ToCSV
  else if format = "yaml" then m.ToYAML
  else if format = "nft" then m.ToNFTables
  else Except.error ("invalid format: " ++ format ++ ". Please specify json, csv, yaml, or nft")

/-- Character-list matching: `pat` occurs at the head of `s`. -/
def matchesAt : List Char → List Char → Bool
  | [], _ => true
  | _ :: _, [] => false
  | p :: ps, c :: cs => p == c && matchesAt ps cs

/-- Character-list matching: `pat` occurs somewhere in `s`. -/
def occursIn (pat : List Char) : List Char → Bool
  | [] => matchesAt pat []
  | c :: cs => matchesAt pat (c :: cs) || occursIn pat cs

/-- Substring test used to state the firewall-export claims: `pat` occurs
contiguously in `s`. -/
def strOccurs (pat s : String) : Bool :=
  occursIn pat.data s.data

/-!
Exact embedding of Go's `slices.SortFunc` (the sort used by `ComMatrix.sort`),
i.e. the generated pattern-defeating quicksort `pdqsortCmpFunc` of the Go
standard library (Go ≥ 1.21), together with its helpers `insertionSortCmpFunc`,
`heapSortCmpFunc`/`siftDownCmpFunc`, `choosePivotCmpFunc` (with
`order2CmpFunc`, `medianCmpFunc`, `medianAdjacentCmpFunc`),
`partialInsertionSortCmpFunc`, `partitionCmpFunc`, `partitionEqualCmpFunc`,
`breakPatternsCmpFunc` (with the `xorshift` generator) and
`reverseRangeCmpFunc`.  Unbounded Go loops are driven by an explicit fuel
argument chosen at every call site to exceed the largest possible number of
iterations, so the embedded control flow never exhausts it.  This embedding is
used to settle the stability question of the sort at a concrete input.
-/

/-- Hint values of Go's `sortedHint` (`unknownHint`, `increasingHint`,
`decreasingHint`). -/
inductive GoHint where
  | unknown : GoHint
  | increasing : GoHint
  | decreasing : GoHint
deriving DecidableEq

/-- Go `bits.Len(uint(n))`: number of bits needed to represent `n`. -/
def goBitsLen (n : Nat) : Nat :=
  if n = 0 then 0 else Nat.log2 n + 1

/-- Go `nextPowerOfTwo(length) = 1 << bits.Len(uint(length))`. -/
def goNextPowerOfTwo (length : Nat) : Nat :=
  1 <<< goBitsLen length

/-- One step of Go's `xorshift` generator on a 64-bit state (`r ^= r << 13;
r ^= r >> 7; r ^= r << 17`); the returned value is the new state. -/
def goXorshiftNext (r : Nat) : Nat :=
  let r1 := (Nat.xor r ((r <<< 13) % (2 ^ 64))) % (2 ^ 64)
  let r2 := (Nat.xor r1 (r1 >>> 7)) % (2 ^ 64)
  (Nat.xor r2 ((r2 <<< 17) % (2 ^ 64))) % (2 ^ 64)

/-- The parallel assignment `data[i], data[j] = data[j], data[i]`. -/
def arrSwap {α : Type} [Inhabited α] (a : Array α) (i j : Nat) : Array α :=
  let vi := a.get! i
  let vj := a.get! j
  (a.set! i vj).set! j vi

section GoSort

variable {α : Type} [Inhabited α] (cmp : α → α → Int)

/-- Inner loop of `insertionSortCmpFunc`: shift `data[j]` left while it is
strictly smaller than its predecessor and `j > a`. -/
def insInnerGo : Nat → Array α → Nat → Nat → Array α
  | 0, data, _, _ => data
  | fuel + 1, data, j, a =>
    if a < j ∧ cmp (data.get! j) (data.get! (j - 1)) < 0 then
      insInnerGo fuel (arrSwap data j (j - 1)) (j - 1) a
    else data

/-- Outer loop of `insertionSortCmpFunc` over `i` from `a+1` to `b-1`. -/
def insOuterGo : Nat → Array α → Nat → Nat → Nat → Array α
  | 0, data, _, _, _ => data
  | fuel + 1, data, i, b, a =>
    if i < b then insOuterGo fuel (insInnerGo cmp i data i a) (i + 1) b a
    else data

/-- Embeds `insertionSortCmpFunc(data, a, b, cmp)`. -/
def insertionSortGo (data : Array α) (a b : Nat) : Array α :=
  insOuterGo cmp (b - a) data (a + 1) b a

/-- Embeds `siftDownCmpFunc(data, lo, hi, first, cmp)` (the `root` argument is
the current value of Go's local `root`, initially `lo`). -/
def siftDownGo : Nat → Array α → Nat → Nat → Nat → Array α
  | 0, data, _, _, _ => data
  | fuel + 1, data, root, hi, first =>
    let child := 2 * root + 1
    if child ≥ hi then data
    else
      let child2 :=
        if child + 1 < hi ∧ cmp (data.get! (first + child)) (data.get! (first + child + 1)) < 0 then
          child + 1
        else child
      if ¬ cmp (data.get! (first + root)) (data.get! (first + child2)) < 0 then data
      else siftDownGo fuel (arrSwap data (first + root) (first + child2)) child2 hi first

/-- Heap-building loop of `heapSortCmpFunc`: `for i := (hi-1)/2; i >= 0; i--`;
the counter argument is `i + 1`. -/
def hsBuildGo : Nat → Array α → Nat → Nat → Array α
  | 0, data, _, _ => data
  | c + 1, data, hi, first => hsBuildGo c (siftDownGo cmp (hi + 1) data c hi first) hi first

/-- Pop loop of `heapSortCmpFunc`: `for i := hi-1; i >= 0; i--`; the counter
argument is `i + 1`. -/
def hsPopGo : Nat → Array α → Nat → Array α
  | 0, data, _ => data
  | c + 1, data, first =>
    hsPopGo c (siftDownGo cmp (c + 2) (arrSwap data first (first + c)) 0 c first) first

/-- Embeds `heapSortCmpFunc(data, a, b, cmp)`. -/
def heapSortGo (data : Array α) (a b : Nat) : Array α :=
  let first := a
  let hi := b - a
  hsPopGo cmp hi (hsBuildGo cmp ((hi - 1) / 2 + 1) data hi first) first

/-- Embeds `reverseRangeCmpFunc(data, a, b, cmp)`. -/
def revGo : Nat → Array α → Nat → Nat → Array α
  | 0, data, _, _ => data
  | fuel + 1, data, i, j => if i < j then revGo fuel (arrSwap data i j) (i + 1) (j - 1) else data

/-- Embeds `reverseRangeCmpFunc`: reverse `data[a:b]` by swapping ends. -/
def reverseRangeGo (data : Array α) (a b : Nat) : Array α :=
  revGo (b - a) data a (b - 1)

/-- Embeds `order2CmpFunc(data, a, b, &swaps)`: returns `(x, y, swaps)` with
`data[x] <= data[y]`, incrementing the swap counter on a flip. -/
def order2Go (data : Array α) (a b swaps : Nat) : Nat × Nat × Nat :=
  if cmp (data.get! b) (data.get! a) < 0 then (b, a, swaps + 1) else (a, b, swaps)

/-- Embeds `medianCmpFunc(data, a, b, c, &swaps)`: index of the median of
`data[a]`, `data[b]`, `data[c]`. -/
def medianGo (data : Array α) (a b c swaps : Nat) : Nat × Nat :=
  let r1 := order2Go cmp data a b swaps
  let r2 := order2Go cmp data r1.2.1 c r1.2.2
  let r3 := order2Go cmp data r1.1 r2.1 r2.2.2
  (r3.2.1, r3.2.2)

/-- Embeds `medianAdjacentCmpFunc(data, a, &swaps)`: median of `data[a-1]`,
`data[a]`, `data[a+1]`. -/
def medianAdjacentGo (data : Array α) (a swaps : Nat) : Nat × Nat :=
  medianGo cmp data (a - 1) a (a + 1) swaps

/-- Embeds `choosePivotCmpFunc(data, a, b, cmp)`: static pivot below 8
elements, median-of-three up to 49, Tukey ninther from 50; the hint is derived
from the number of comparison flips. -/
def choosePivotGo (data : Array α) (a b : Nat) : Nat × GoHint :=
  let l := b - a
  let i0 := a + l / 4 * 1
  let j0 := a + l / 4 * 2
  let k0 := a + l / 4 * 3
  let r :=
    if l ≥ 8 then
      if l ≥ 50 then
        let ri := medianAdjacentGo cmp data i0 0
        let rj := medianAdjacentGo cmp data j0 ri.2
        let rk := medianAdjacentGo cmp data k0 rj.2
        medianGo cmp data ri.1 rj.1 rk.1 rk.2
      else
        medianGo cmp data i0 j0 k0 0
    else (j0, 0)
  if r.2 = 0 then (r.1, GoHint.increasing)
  else if r.2 = 12 then (r.1, GoHint.decreasing)
  else (r.1, GoHint.unknown)

/-- One swap of `breakPatternsCmpFunc`'s loop body: draw the next pseudo-random
index and swap it with position `idx - 1 + i`. -/
def breakOneGo (data : Array α) (random modulus length a idx i : Nat) : Array α × Nat :=
  let random2 := goXorshiftNext random
  let other := Nat.land random2 (modulus - 1)
  let other2 := if other ≥ length then other - length else other
  (arrSwap data (idx - 1 + i) (a + other2), random2)

/-- Embeds `breakPatternsCmpFunc(data, a, b, cmp)`: for ranges of at least 8
elements, swap three elements near the middle with pseudo-random positions
(the `xorshift` state is seeded with the range length). -/
def breakPatternsGo (data : Array α) (a b : Nat) : Array α :=
  let length := b - a
  if length ≥ 8 then
    let modulus := goNextPowerOfTwo length
    let idx := a + length / 4 * 2 - 1
    let s0 := breakOneGo data length modulus length a idx 0
    let s1 := breakOneGo s0.1 s0.2 modulus length a idx 1
    (breakOneGo s1.1 s1.2 modulus length a idx 2).1
  else data

/-- Scanning loop of `partialInsertionSortCmpFunc`: advance `i` while
`data[i]` is not strictly smaller than its predecessor. -/
def pisAdvanceGo : Nat → Array α → Nat → Nat → Nat
  | 0, _, i, _ => i
  | fuel + 1, data, i, b =>
    if i < b ∧ ¬ cmp (data.get! i) (data.get! (i - 1)) < 0 then pisAdvanceGo fuel data (i + 1) b
    else i

/-- Left-shifting loop of `partialInsertionSortCmpFunc`
(`for j := i - 1; j >= 1; j--`); the argument is the current `j`. -/
def pisLeftGo : Nat → Array α → Array α
  | 0, data => data
  | j + 1, data =>
    if cmp (data.get! (j + 1)) (data.get! j) < 0 then pisLeftGo j (arrSwap data (j + 1) j)
    else data

/-- Right-shifting loop of `partialInsertionSortCmpFunc`
(`for j := i + 1; j < b; j++`). -/
def pisRightGo : Nat → Array α → Nat → Nat → Array α
  | 0, data, _, _ => data
  | fuel + 1, data, j, b =>
    if j < b ∧ cmp (data.get! j) (data.get! (j - 1)) < 0 then
      pisRightGo fuel (arrSwap data j (j - 1)) (j + 1) b
    else data

/-- Step loop of `partialInsertionSortCmpFunc` (at most `maxSteps = 5`
adjacent out-of-order pairs are shifted); returns the updated data and whether
the range ended up sorted. -/
def pisStepsGo : Nat → Array α → Nat → Nat → Nat → Array α × Bool
  | 0, data, _, _, _ => (data, false)
  | steps + 1, data, i, a, b =>
    let i2 := pisAdvanceGo cmp (b + 1) data i b
    if i2 = b then (data, true)
    else if b - a < 50 then (data, false)
    else
      let d1 := arrSwap data i2 (i2 - 1)
      let d2 := if i2 - a ≥ 2 then pisLeftGo cmp (i2 - 1) d1 else d1
      let d3 := if b - i2 ≥ 2 then pisRightGo cmp (b + 1) d2 (i2 + 1) b else d2
      pisStepsGo steps d3 i2 a b

/-- Embeds `partialInsertionSortCmpFunc(data, a, b, cmp)`. -/
def partialInsertionSortGo (data : Array α) (a b : Nat) : Array α × Bool :=
  pisStepsGo cmp 5 data (a + 1) a b

/-- Advance loop of the partition functions: `for i <= j && cmp(data[i],
data[a]) < 0 { i++ }`; returns the final `i`. -/
def ptAdvGo : Nat → Array α → Nat → Nat → Nat → Nat
  | 0, _, i, _, _ => i
  | fuel + 1, data, i, j, a =>
    if i ≤ j ∧ cmp (data.get! i) (data.get! a) < 0 then ptAdvGo fuel data (i + 1) j a
    else i

/-- Retreat loop of `partitionCmpFunc`: `for i <= j && !(cmp(data[j], data[a])
< 0) { j-- }`; returns the final `j`. -/
def ptRetGo : Nat → Array α → Nat → Nat → Nat → Nat
  | 0, _, _, j, _ => j
  | fuel + 1, data, i, j, a =>
    if i ≤ j ∧ ¬ cmp (data.get! j) (data.get! a) < 0 then ptRetGo fuel data i (j - 1) a
    else j

/-- Main loop of `partitionCmpFunc`: repeatedly advance both cursors and swap
until they cross; returns the data and the final `j`. -/
def ptLoopGo : Nat → Array α → Nat → Nat → Nat → Array α × Nat
  | 0, data, _, j, _ => (data, j)
  | fuel + 1, data, i, j, a =>
    let i2 := ptAdvGo cmp (data.size + 2) data i j a
    let j2 := ptRetGo cmp (data.size + 2) data i2 j a
    if i2 > j2 then (data, j2)
    else ptLoopGo fuel (arrSwap data i2 j2) (i2 + 1) (j2 - 1) a

/-- Embeds `partitionCmpFunc(data, a, b, pivot, cmp)`: move the pivot to
`data[a]`, partition the rest, put the pivot back at the crossing point;
returns `(data, newpivot, alreadyPartitioned)`. -/
def partitionGo (data : Array α) (a b pivot : Nat) : Array α × Nat × Bool :=
  let d0 := arrSwap data a pivot
  let i0 := ptAdvGo cmp (d0.size + 2) d0 (a + 1) (b - 1) a
  let j0 := ptRetGo cmp (d0.size + 2) d0 i0 (b - 1) a
  if i0 > j0 then (arrSwap d0 j0 a, j0, true)
  else
    let d1 := arrSwap d0 i0 j0
    let r := ptLoopGo cmp (d1.size + 2) d1 (i0 + 1) (j0 - 1) a
    (arrSwap r.1 r.2 a, r.2, false)

/-- Advance loop of `partitionEqualCmpFunc`: `for i <= j && !(cmp(data[a],
data[i]) < 0) { i++ }`. -/
def peAdvGo : Nat → Array α → Nat → Nat → Nat → Nat
  | 0, _, i, _, _ => i
  | fuel + 1, data, i, j, a =>
    if i ≤ j ∧ ¬ cmp (data.get! a) (data.get! i) < 0 then peAdvGo fuel data (i + 1) j a
    else i

/-- Retreat loop of `partitionEqualCmpFunc`: `for i <= j && cmp(data[a],
data[j]) < 0 { j-- }`. -/
def peRetGo : Nat → Array α → Nat → Nat → Nat → Nat
  | 0, _, _, j, _ => j
  | fuel + 1, data, i, j, a =>
    if i ≤ j ∧ cmp (data.get! a) (data.get! j) < 0 then peRetGo fuel data i (j - 1) a
    else j

/-- Main loop of `partitionEqualCmpFunc`; returns the data and the final `i`
(the new pivot). -/
def peLoopGo : Nat → Array α → Nat → Nat → Nat → Array α × Nat
  | 0, data, i, _, _ => (data, i)
  | fuel + 1, data, i, j, a =>
    let i2 := peAdvGo cmp (data.size + 2) data i j a
    let j2 := peRetGo cmp (data.size + 2) data i2 j a
    if i2 > j2 then (data, i2)
    else peLoopGo fuel (arrSwap data i2 j2) (i2 + 1) (j2 - 1) a

/-- Embeds `partitionEqualCmpFunc(data, a, b, pivot, cmp)`: partition
`data[a:b]` into elements equal to and elements greater than the pivot. -/
def partitionEqualGo (data : Array α) (a b pivot : Nat) : Array α × Nat :=
  let d0 := arrSwap data a pivot
  peLoopGo cmp (d0.size + 2) d0 (a + 1) (b - 1) a

/-- Embeds `pdqsortCmpFunc(data, a, b, limit, cmp)`.  The two boolean
arguments are the loop-carried `wasBalanced` and `wasPartitioned` flags (both
`true` on entry to each Go invocation); the recursive call for the shorter
side re-enters with fresh flags, while the tail of the Go `for` loop continues
with the updated ones. -/
def pdqsortGo : Nat → Array α → Nat → Nat → Nat → Bool → Bool → Array α
  | 0, data, _, _, _, _, _ => data
  | fuel + 1, data, a, b, limit, wasBalanced, wasPartitioned =>
    let length := b - a
    if length ≤ 12 then insertionSortGo cmp data a b
    else if limit = 0 then heapSortGo cmp data a b
    else
      let dl : Array α × Nat :=
        if !wasBalanced then (breakPatternsGo data a b, limit - 1) else (data, limit)
      let data1 := dl.1
      let limit1 := dl.2
      let ph := choosePivotGo cmp data1 a b
      let dph : Array α × Nat × GoHint :=
        if ph.2 = GoHint.decreasing then
          (reverseRangeGo data1 a b, (b - 1) - (ph.1 - a), GoHint.increasing)
        else (data1, ph.1, ph.2)
      let data2 := dph.1
      let pivot := dph.2.1
      let hint := dph.2.2
      let ps : Array α × Bool :=
        if wasBalanced = true ∧ wasPartitioned = true ∧ hint = GoHint.increasing then
          partialInsertionSortGo cmp data2 a b
        else (data2, false)
      if ps.2 then ps.1
      else
        let data3 := ps.1
        if 0 < a ∧ ¬ cmp (data3.get! (a - 1)) (data3.get! pivot) < 0 then
          let pe := partitionEqualGo cmp data3 a b pivot
          pdqsortGo fuel pe.1 pe.2 b limit1 wasBalanced wasPartitioned
        else
          let pt := partitionGo cmp data3 a b pivot
          let data4 := pt.1
          let mid := pt.2.1
          let alreadyPartitioned := pt.2.2
          let leftLen := mid - a
          let rightLen := b - mid
          let balanceThreshold := length / 8
          let wasBalanced2 := decide (min leftLen rightLen ≥ balanceThreshold)
          if leftLen < rightLen then
            let data5 := pdqsortGo fuel data4 a mid limit1 true true
            pdqsortGo fuel data5 (mid + 1) b limit1 wasBalanced2 alreadyPartitioned
          else
            let data5 := pdqsortGo fuel data4 (mid + 1) b limit1 true true
            pdqsortGo fuel data5 a mid limit1 wasBalanced2 alreadyPartitioned

/-- Embeds `slices.SortFunc(x, cmp)`: `pdqsortCmpFunc(x, 0, len(x),
bits.Len(uint(len(x))), cmp)`. -/
def goSortFunc (x : Array α) : Array α :=
  pdqsortGo cmp (x.size * 2 + 64) x 0 x.size (goBitsLen x.size) true true

end GoSort

/-!  Basic facts about the identity predicate and the comparator. -/

/-- The boolean sortedness check used in concrete statements: every adjacent
pair of the list is ordered by the sort comparator. -/
def chainLE : List ComDetails → Bool
  | [] => true
  | [_] => true
  | a :: b :: rest => decide (compareCD a b ≤ 0) && chainLE (b :: rest)

theorem Equals_iff_key (a b : ComDetails) : a.Equals b = true ↔ cdKey a = cdKey b := by
  simp [ComDetails.Equals]

theorem Equals_refl (a : ComDetails) : a.Equals a = true := by
  simp [ComDetails.Equals]

theorem Contains_iff (m : ComMatrix) (cd : ComDetails) :
    m.Contains cd = true ↔ ∃ c ∈ m.Matrix, cdKey c = cdKey cd := by
  simp [ComMatrix.Contains, List.any_eq_true, Equals_iff_key]

theorem goCompareChars_zero_iff : ∀ a b : List Char, goCompareChars a b = 0 ↔ a = b := by
  intro a
  induction a with
  | nil => intro b; cases b <;> simp [goCompareChars]
  | cons x xs ih =>
    intro b
    cases b with
    | nil => simp [goCompareChars]
    | cons y ys =>
      by_cases hxy : x < y
      · simp only [goCompareChars, if_pos hxy]
        constructor
        · intro h; exact absurd h (by decide)
        · intro h
          injection h with h1 _
          exact absurd (h1 ▸ hxy) (lt_irrefl y)
      · by_cases hyx : y < x
        · simp only [goCompareChars, if_neg hxy, if_pos hyx]
          constructor
          · intro h; exact absurd h (by decide)
          · intro h
            injection h with h1 _
            exact absurd (h1 ▸ hyx) (lt_irrefl x)
        · have hxy2 : x = y := le_antisymm (not_lt.mp hyx) (not_lt.mp hxy)
          subst hxy2
          simp [goCompareChars, ih ys]

theorem goCompareChars_neg : ∀ a b : List Char, goCompareChars b a = -goCompareChars a b := by
  intro a
  induction a with
  | nil => intro b; cases b <;> simp [goCompareChars]
  | cons x xs ih =>
    intro b
    cases b with
    | nil => simp [goCompareChars]
    | cons y ys =>
      by_cases hxy : x < y
      · have hyx : ¬ y < x := lt_asymm hxy
        simp [goCompareChars, hxy, hyx]
      · by_cases hyx : y < x
        · simp [goCompareChars, hxy, hyx]
        · simp [goCompareChars, hxy, hyx, ih ys]

theorem goCompareChars_le_trans :
    ∀ a b c : List Char, goCompareChars a b ≤ 0 → goCompareChars b c ≤ 0 →
      goCompareChars a c ≤ 0 := by
  intro a
  induction a with
  | nil => intro b c _ _; cases c <;> simp [goCompareChars]
  | cons x xs ih =>
    intro b c h1 h2
    cases b with
    | nil => simp [goCompareChars] at h1
    | cons y ys =>
      cases c with
      | nil => simp [goCompareChars] at h2
      | cons z zs =>
        by_cases hxy : x < y
        · by_cases hyz : y < z
          · have hxz : x < z := lt_trans hxy hyz
            simp [goCompareChars, hxz]
          · by_cases hzy : z < y
            · simp [goCompareChars, hyz, hzy] at h2
            · have hyz2 : y = z := le_antisymm (not_lt.mp hzy) (not_lt.mp hyz)
              subst hyz2
              simp [goCompareChars, hxy]
        · by_cases hyx : y < x
          · simp [goCompareChars, hxy, hyx] at h1
          · have hxy2 : x = y := le_antisymm (not_lt.mp hyx) (not_lt.mp hxy)
            subst hxy2
            simp only [goCompareChars, if_neg hxy, if_neg hyx] at h1
            by_cases hyz : x < z
            · simp [goCompareChars, hyz]
            · by_cases hzy : z < x
              · simp [goCompareChars, hyz, hzy] at h2
              · have hyz2 : x = z := le_antisymm (not_lt.mp hzy) (not_lt.mp hyz)
                subst hyz2
                simp only [goCompareChars, if_neg hyz, if_neg hzy] at h2 ⊢
                exact ih ys zs h1 h2

theorem goCompareString_zero_iff (a b : String) : goCompareString a b = 0 ↔ a = b := by
  cases a with
  | mk la =>
    cases b with
    | mk lb => simpa [goCompareString, String.ext_iff] using goCompareChars_zero_iff la lb

theorem goCompareString_neg (a b : String) : goCompareString b a = -goCompareString a b :=
  goCompareChars_neg a.data b.data

theorem goCompareString_le_trans (a b c : String) :
    goCompareString a b ≤ 0 → goCompareString b c ≤ 0 → goCompareString a c ≤ 0 :=
  goCompareChars_le_trans a.data b.data c.data

theorem goCompareString_lt_of_le_of_lt (a b c : String) :
    goCompareString a b ≤ 0 → goCompareString b c < 0 → goCompareString a c < 0 := by
  intro h1 h2
  have hle : goCompareString a c ≤ 0 := goCompareString_le_trans a b c h1 (le_of_lt h2)
  rcases lt_or_eq_of_le hle with h | h
  · exact h
  · exfalso
    have hac : a = c := (goCompareString_zero_iff a c).mp h
    subst hac
    have := goCompareString_neg a b
    omega

theorem goCompareString_lt_of_lt_of_le (a b c : String) :
    goCompareString a b < 0 → goCompareString b c ≤ 0 → goCompareString a c < 0 := by
  intro h1 h2
  have hle : goCompareString a c ≤ 0 := goCompareString_le_trans a b c (le_of_lt h1) h2
  rcases lt_or_eq_of_le hle with h | h
  · exact h
  · exfalso
    have hac : a = c := (goCompareString_zero_iff a c).mp h
    subst hac
    have := goCompareString_neg a b
    omega

theorem goCompareInt_zero_iff (a b : Int) : goCompareInt a b = 0 ↔ a = b := by
  constructor
  · intro h
    unfold goCompareInt at h
    split_ifs at h <;> omega
  · intro h
    subst h
    simp [goCompareInt, lt_irrefl]

theorem goCompareInt_neg (a b : Int) : goCompareInt b a = -goCompareInt a b := by
  unfold goCompareInt
  split_ifs <;> omega

theorem goCompareInt_le_trans (a b c : Int) :
    goCompareInt a b ≤ 0 → goCompareInt b c ≤ 0 → goCompareInt a c ≤ 0 := by
  intro h1 h2
  unfold goCompareInt at h1 h2 ⊢
  split_ifs at h1 h2 ⊢ <;> omega

theorem compareCD_le_iff (a b : ComDetails) :
    compareCD a b ≤ 0 ↔
      (goCompareString a.NodeRole b.NodeRole < 0 ∨
        (goCompareString a.NodeRole b.NodeRole = 0 ∧
          (goCompareString a.Protocol b.Protocol < 0 ∨
            (goCompareString a.Protocol b.Protocol = 0 ∧ goCompareInt a.Port b.Port ≤ 0)))) := by
  unfold compareCD
  dsimp only
  split_ifs <;> omega

theorem compareCD_neg (a b : ComDetails) : compareCD b a = -compareCD a b := by
  unfold compareCD
  dsimp only
  rw [goCompareString_neg a.NodeRole b.NodeRole, goCompareString_neg a.Protocol b.Protocol,
    goCompareInt_neg a.Port b.Port]
  split_ifs <;> omega

theorem compareCD_le_trans (a b c : ComDetails) :
    compareCD a b ≤ 0 → compareCD b c ≤ 0 → compareCD a c ≤ 0 := by
  intro h1 h2
  rw [compareCD_le_iff] at h1 h2 ⊢
  rcases h1 with h1 | ⟨h1e, h1r⟩
  · rcases h2 with h2 | ⟨h2e, _⟩
    · exact Or.inl (goCompareString_lt_of_lt_of_le _ _ _ h1 (le_of_lt h2))
    · have hbc : b.NodeRole = c.NodeRole := (goCompareString_zero_iff _ _).mp h2e
      exact Or.inl (hbc ▸ h1)
  · have hab : a.NodeRole = b.NodeRole := (goCompareString_zero_iff _ _).mp h1e
    rcases h2 with h2 | ⟨h2e, h2r⟩
    · exact Or.inl (hab ▸ h2)
    · have hbc : b.NodeRole = c.NodeRole := (goCompareString_zero_iff _ _).mp h2e
      refine Or.inr ⟨(goCompareString_zero_iff _ _).mpr (hab.trans hbc), ?_⟩
      rcases h1r with h1r | ⟨h1re, h1rp⟩
      · rcases h2r with h2r | ⟨h2re, _⟩
        · exact Or.inl (goCompareString_lt_of_lt_of_le _ _ _ h1r (le_of_lt h2r))
        · have hpbc : b.Protocol = c.Protocol := (goCompareString_zero_iff _ _).mp h2re
          exact Or.inl (hpbc ▸ h1r)
      · have hpab : a.Protocol = b.Protocol := (goCompareString_zero_iff _ _).mp h1re
        rcases h2r with h2r | ⟨h2re, h2rp⟩
        · exact Or.inl (hpab ▸ h2r)
        · have hpbc : b.Protocol = c.Protocol := (goCompareString_zero_iff _ _).mp h2re
          refine Or.inr ⟨(goCompareString_zero_iff _ _).mpr (hpab.trans hpbc), ?_⟩
          exact goCompareInt_le_trans _ _ _ h1rp h2rp

theorem cdLE_trans (a b c : ComDetails) :
    cdLE a b = true → cdLE b c = true → cdLE a c = true := by
  simp only [cdLE, decide_eq_true_eq]
  exact compareCD_le_trans a b c

theorem cdLE_total (a b : ComDetails) : (cdLE a b || cdLE b a) = true := by
  simp only [cdLE, Bool.or_eq_true, decide_eq_true_eq]
  have := compareCD_neg a b
  omega

theorem compareCD_zero_iff (a b : ComDetails) :
    compareCD a b = 0 ↔
      (goCompareString a.NodeRole b.NodeRole = 0 ∧ goCompareString a.Protocol b.Protocol = 0 ∧
        goCompareInt a.Port b.Port = 0) := by
  unfold compareCD
  dsimp only
  split_ifs <;> omega

/-!  Facts about the sort and the deduplication. -/

theorem sortList_perm (l : List ComDetails) : (sortList l).Perm l :=
  List.mergeSort_perm l cdLE

theorem sortList_pairwise (l : List ComDetails) :
    (sortList l).Pairwise (fun a b => cdLE a b = true) :=
  List.sorted_mergeSort cdLE_trans cdLE_total l

theorem sortList_sorted (l : List ComDetails) :
    (sortList l).Pairwise (fun a b => compareCD a b ≤ 0) :=
  (sortList_pairwise l).imp (fun h => by simpa [cdLE] using h)

theorem sortList_of_pairwise {l : List ComDetails}
    (h : l.Pairwise (fun a b => cdLE a b = true)) : sortList l = l :=
  List.mergeSort_of_sorted h

/-- Freedom from identity duplicates: no two records of the list share the
identity key `(nodeRole, port, protocol)` that `Equals` compares. -/
def keyDistinct (l : List ComDetails) : Prop :=
  l.Pairwise (fun a b => cdKey a ≠ cdKey b)

theorem keyDistinct_of_perm {l1 l2 : List ComDetails} (hp : l1.Perm l2)
    (h : keyDistinct l1) : keyDistinct l2 :=
  (List.Perm.pairwise_iff (fun h => h.symm) hp).mp h

theorem dedupFrom_notin_seen :
    ∀ (seen : List String) (l : List ComDetails) (r : ComDetails),
      r ∈ dedupFrom seen l → seen.contains (cdKey r) = false := by
  intro seen l
  induction l generalizing seen with
  | nil => intro r hr; simp [dedupFrom] at hr
  | cons item rest ih =>
    intro r hr
    unfold dedupFrom at hr
    by_cases hc : seen.contains (cdKey item)
    · rw [if_pos hc] at hr
      exact ih seen r hr
    · rw [if_neg hc] at hr
      rcases List.mem_cons.mp hr with h | h
      · subst h
        exact Bool.of_not_eq_true hc
      · have := ih (cdKey item :: seen) r h
        simp only [List.contains_cons, Bool.or_eq_false_iff] at this
        exact this.2

theorem dedupFrom_keyDistinct :
    ∀ (seen : List String) (l : List ComDetails), keyDistinct (dedupFrom seen l) := by
  intro seen l
  induction l generalizing seen with
  | nil => simp [dedupFrom, keyDistinct]
  | cons item rest ih =>
    unfold dedupFrom
    by_cases hc : seen.contains (cdKey item)
    · rw [if_pos hc]; exact ih seen
    · rw [if_neg hc]
      refine List.Pairwise.cons ?_ (ih (cdKey item :: seen))
      intro r hr
      have := dedupFrom_notin_seen (cdKey item :: seen) rest r hr
      simp only [List.contains_cons, Bool.or_eq_false_iff, beq_eq_false_iff_ne] at this
      exact fun h => this.1 h.symm

theorem dedupFrom_of_keyDistinct :
    ∀ (seen : List String) (l : List ComDetails),
      keyDistinct l → (∀ r ∈ l, seen.contains (cdKey r) = false) → dedupFrom seen l = l := by
  intro seen l
  induction l generalizing seen with
  | nil => intro _ _; simp [dedupFrom]
  | cons item rest ih =>
    intro hd hseen
    have hc : seen.contains (cdKey item) = false := hseen item (List.mem_cons_self item rest)
    unfold dedupFrom
    rw [if_neg (fun h => Bool.false_ne_true (hc ▸ h))]
    congr 1
    refine ih (cdKey item :: seen) (List.Pairwise.sublist (List.sublist_cons_self item rest) hd) ?_
    intro r hr
    simp only [List.contains_cons, Bool.or_eq_false_iff, beq_eq_false_iff_ne]
    constructor
    · exact fun h => (List.pairwise_cons.mp hd).1 r hr h.symm
    · exact hseen r (List.mem_cons_of_mem item hr)

theorem dedupFrom_filter_seen :
    ∀ (seen : List String) (l : List ComDetails) (k : String),
      seen.contains k = true →
      (dedupFrom seen l).filter (fun c => cdKey c == k) = [] := by
  intro seen l
  induction l generalizing seen with
  | nil => intro k _; simp [dedupFrom]
  | cons item rest ih =>
    intro k hk
    unfold dedupFrom
    by_cases hc : seen.contains (cdKey item) = true
    · rw [if_pos hc]; exact ih seen k hk
    · rw [if_neg hc]
      have hne : (cdKey item == k) = false := by
        by_cases hx : cdKey item = k
        · exact absurd (by rw [hx]; exact hk) hc
        · exact beq_eq_false_iff_ne.mpr hx
      rw [List.filter_cons_of_neg (by simp [hne])]
      refine ih (cdKey item :: seen) k ?_
      simp only [List.contains_cons, Bool.or_eq_true]
      exact Or.inr hk

theorem dedupFrom_filter_key :
    ∀ (seen : List String) (l : List ComDetails) (k : String),
      seen.contains k = false →
      (dedupFrom seen l).filter (fun c => cdKey c == k) =
        (match l.find? (fun c => cdKey c == k) with
          | some f => [f]
          | none => []) := by
  intro seen l
  induction l generalizing seen with
  | nil => intro k _; simp [dedupFrom]
  | cons item rest ih =>
    intro k hk
    unfold dedupFrom
    by_cases hkey : (cdKey item == k) = true
    · have hkk : cdKey item = k := beq_iff_eq.mp hkey
      have hc : seen.contains (cdKey item) = false := hkk ▸ hk
      rw [if_neg (fun h => Bool.false_ne_true (hc ▸ h))]
      rw [List.filter_cons_of_pos (by simp [hkey])]
      have hrest : (dedupFrom (cdKey item :: seen) rest).filter (fun c => cdKey c == k) = [] := by
        refine dedupFrom_filter_seen _ _ _ ?_
        simp only [List.contains_cons, Bool.or_eq_true]
        exact Or.inl (by simp [hkk])
      rw [hrest]
      simp [List.find?_cons, hkey]
    · have hkey2 : (cdKey item == k) = false := Bool.of_not_eq_true hkey
      have hfind : List.find? (fun c => cdKey c == k) (item :: rest) =
          List.find? (fun c => cdKey c == k) rest := by
        simp [List.find?_cons, hkey2]
      rw [hfind]
      by_cases hc : seen.contains (cdKey item) = true
      · rw [if_pos hc]
        exact ih seen k hk
      · rw [if_neg hc]
        rw [List.filter_cons_of_neg (by simp [hkey2])]
        refine ih (cdKey item :: seen) k ?_
        simp only [List.contains_cons, Bool.or_eq_false_iff, beq_eq_false_iff_ne]
        exact ⟨fun h => (by simp [h] at hkey2), by simpa using hk⟩

/-!  Characterization of the sign map built by `markDiffBetweenMatrices`. -/

theorem markLoop1_none (other : ComMatrix) :
    ∀ (l : List ComDetails) (acc : String → Option Int) (s : String),
      (∀ c ∈ l, cdString c ≠ s) → markLoop1 other acc l s = acc s := by
  intro l
  induction l with
  | nil => intro acc s _; rfl
  | cons a rest ih =>
    intro acc s h
    unfold markLoop1
    rw [ih _ s (fun c hc => h c (List.mem_cons_of_mem a hc))]
    unfold mapSet
    rw [if_neg (fun hs => h a (List.mem_cons_self a rest) hs.symm)]

theorem markLoop1_values (other : ComMatrix) :
    ∀ (l : List ComDetails) (acc : String → Option Int) (s : String),
      (∀ t, acc t = none ∨ acc t = some 0 ∨ acc t = some 1) →
      (markLoop1 other acc l s = none ∨ markLoop1 other acc l s = some 0 ∨
        markLoop1 other acc l s = some 1) := by
  intro l
  induction l with
  | nil => intro acc s h; exact h s
  | cons a rest ih =>
    intro acc s h
    unfold markLoop1
    refine ih _ s ?_
    intro t
    unfold mapSet
    by_cases ht : t = cdString a
    · rw [if_pos ht]
      by_cases hc : other.Contains a = true
      · rw [if_pos hc]; exact Or.inr (Or.inl rfl)
      · rw [if_neg hc]; exact Or.inr (Or.inr rfl)
    · rw [if_neg ht]; exact h t

theorem markLoop1_mem (other : ComMatrix) :
    ∀ (l : List ComDetails) (acc : String → Option Int) (c : ComDetails),
      (∀ c1 ∈ l, ∀ c2 ∈ l, cdString c1 = cdString c2 → c1 = c2) →
      c ∈ l →
      markLoop1 other acc l (cdString c) = some (if other.Contains c then 0 else 1) := by
  intro l
  induction l with
  | nil => intro _ _ _ hc; exact absurd hc (List.not_mem_nil _)
  | cons a rest ih =>
    intro acc c hinj hc
    have hinjr : ∀ c1 ∈ rest, ∀ c2 ∈ rest, cdString c1 = cdString c2 → c1 = c2 :=
      fun c1 h1 c2 h2 => hinj c1 (List.mem_cons_of_mem a h1) c2 (List.mem_cons_of_mem a h2)
    unfold markLoop1
    by_cases hrest : ∃ c2 ∈ rest, cdString c2 = cdString c
    · rcases hrest with ⟨c2, hc2, hs2⟩
      have : c2 = c := hinj c2 (List.mem_cons_of_mem a hc2) c hc hs2
      subst this
      exact ih _ c2 hinjr hc2
    · have hca : c = a := by
        rcases List.mem_cons.mp hc with h | h
        · exact h
        · exact absurd ⟨c, h, rfl⟩ hrest
      subst hca
      rw [markLoop1_none other rest _ (cdString c)
        (fun c2 h2 hs => hrest ⟨c2, h2, hs⟩)]
      unfold mapSet
      rw [if_pos rfl]

theorem markLoop2_none (m : ComMatrix) :
    ∀ (l : List ComDetails) (acc : String → Option Int) (s : String),
      (∀ c ∈ l, cdString c = s → c.Service = "rpc.statd" ∨ m.Contains c = true) →
      markLoop2 m acc l s = acc s := by
  intro l
  induction l with
  | nil => intro acc s _; rfl
  | cons a rest ih =>
    intro acc s h
    unfold markLoop2
    rw [ih _ s (fun c hc => h c (List.mem_cons_of_mem a hc))]
    by_cases h1 : a.Service = "rpc.statd"
    · rw [if_pos h1]
    · rw [if_neg h1]
      by_cases h2 : m.Contains a = true
      · rw [if_pos h2]
      · rw [if_neg h2]
        unfold mapSet
        refine if_neg (fun hs => ?_)
        rcases h a (List.mem_cons_self a rest) hs.symm with hsvc | hcm
        · exact h1 hsvc
        · exact h2 hcm

theorem markLoop2_hit (m : ComMatrix) :
    ∀ (l : List ComDetails) (acc : String → Option Int) (s : String),
      (∃ c ∈ l, cdString c = s ∧ c.Service ≠ "rpc.statd" ∧ m.Contains c = false) →
      markLoop2 m acc l s = some (-1) := by
  intro l
  induction l with
  | nil => intro acc s h; rcases h with ⟨c, hc, _⟩; exact absurd hc (List.not_mem_nil c)
  | cons a rest ih =>
    intro acc s h
    unfold markLoop2
    by_cases hrest : ∃ c ∈ rest, cdString c = s ∧ c.Service ≠ "rpc.statd" ∧ m.Contains c = false
    · exact ih _ s hrest
    · rcases h with ⟨c, hc, hcs, hsvc, hcm⟩
      have hca : c = a := by
        rcases List.mem_cons.mp hc with h | h
        · exact h
        · exact absurd ⟨c, h, hcs, hsvc, hcm⟩ hrest
      subst hca
      rw [markLoop2_none m rest _ s ?_]
      · rw [if_neg hsvc, if_neg (fun h2 => by rw [hcm] at h2; exact Bool.false_ne_true h2)]
        unfold mapSet
        rw [if_pos hcs.symm]
      · intro c2 h2 hs2
        by_cases hsvc2 : c2.Service = "rpc.statd"
        · exact Or.inl hsvc2
        · by_cases hcm2 : m.Contains c2 = true
          · exact Or.inr hcm2
          · exact absurd ⟨c2, h2, hs2, hsvc2, Bool.of_not_eq_true hcm2⟩ hrest

theorem markLoop2_values (m : ComMatrix) :
    ∀ (l : List ComDetails) (acc : String → Option Int) (s : String),
      (∀ t, acc t = none ∨ acc t = some 0 ∨ acc t = some 1 ∨ acc t = some (-1)) →
      (markLoop2 m acc l s = none ∨ markLoop2 m acc l s = some 0 ∨
        markLoop2 m acc l s = some 1 ∨ markLoop2 m acc l s = some (-1)) := by
  intro l
  induction l with
  | nil => intro acc s h; exact h s
  | cons a rest ih =>
    intro acc s h
    unfold markLoop2
    refine ih _ s ?_
    intro t
    by_cases h1 : a.Service = "rpc.statd"
    · rw [if_pos h1]; exact h t
    · rw [if_neg h1]
      by_cases h2 : m.Contains a = true
      · rw [if_pos h2]; exact h t
      · rw [if_neg h2]
        unfold mapSet
        by_cases ht : t = cdString a
        · rw [if_pos ht]; exact Or.inr (Or.inr (Or.inr rfl))
        · rw [if_neg ht]; exact h t

theorem diffSign_values (m other : ComMatrix) (cd : ComDetails) :
    diffSign m other cd = 1 ∨ diffSign m other cd = -1 ∨ diffSign m other cd = 0 := by
  unfold diffSign ComMatrix.markDiffBetweenMatrices mapGetD
  have h2 := markLoop2_values m other.Matrix (markLoop1 other (fun _ => none) m.Matrix)
    (cdString cd)
    (fun t => by
      rcases markLoop1_values other m.Matrix (fun _ => none) t (fun _ => Or.inl rfl)
        with h | h | h <;> simp [h])
  rcases h2 with h | h | h | h <;> simp [h]

instance instDecEqExceptStr : DecidableEq (Except String String) := fun x y =>
  match x, y with
  | Except.ok a, Except.ok b =>
    if h : a = b then isTrue (by rw [h]) else isFalse (fun hc => h (by injection hc))
  | Except.error a, Except.error b =>
    if h : a = b then isTrue (by rw [h]) else isFalse (fun hc => h (by injection hc))
  | Except.ok _, Except.error _ => isFalse (fun hc => Except.noConfusion hc)
  | Except.error _, Except.ok _ => isFalse (fun hc => Except.noConfusion hc)

instance instDecKeyDistinct (l : List ComDetails) : Decidable (keyDistinct l) :=
  inferInstanceAs (Decidable (l.Pairwise _))

/-- Unfolding of `combine` to the sorted concatenation it computes. -/
theorem combine_def (A B : ComMatrix) :
    (A.combine B).Matrix = sortList (A.Matrix ++ B.Matrix.filter (fun cd => !(A.Contains cd))) :=
  rfl

/-!  The port-collecting loop of the nft exporter, and substring facts. -/

theorem nftLoop_acc :
    ∀ (l : List ComDetails) (acc : List String × List String),
      nftLoop acc l =
        (acc.1 ++ (l.filter (fun cd => cd.Protocol == "TCP")).map (fun cd => toString cd.Port),
         acc.2 ++ (l.filter (fun cd => cd.Protocol == "UDP")).map (fun cd => toString cd.Port)) := by
  intro l
  induction l with
  | nil => intro acc; simp [nftLoop]
  | cons line rest ih =>
    intro acc
    unfold nftLoop
    by_cases h1 : line.Protocol = "TCP"
    · rw [if_pos h1, ih]
      have ht : (line.Protocol == "TCP") = true := beq_iff_eq.mpr h1
      have hu : (line.Protocol == "UDP") = false := beq_eq_false_iff_ne.mpr (by rw [h1]; decide)
      simp [List.filter_cons, ht, hu]
    · rw [if_neg h1]
      have ht : (line.Protocol == "TCP") = false := beq_eq_false_iff_ne.mpr h1
      by_cases h2 : line.Protocol = "UDP"
      · rw [if_pos h2, ih]
        have hu : (line.Protocol == "UDP") = true := beq_iff_eq.mpr h2
        simp [List.filter_cons, ht, hu]
      · rw [if_neg h2, ih]
        have hu : (line.Protocol == "UDP") = false := beq_eq_false_iff_ne.mpr h2
        simp [List.filter_cons, ht, hu]

theorem matchesAt_append (p r : List Char) : matchesAt p (p ++ r) = true := by
  induction p with
  | nil => rfl
  | cons c cs ih => simp [matchesAt, ih]

theorem occursIn_split (pre pat suf : List Char) : occursIn pat (pre ++ (pat ++ suf)) = true := by
  induction pre with
  | nil =>
    rw [List.nil_append]
    cases pat with
    | nil => cases suf <;> simp [occursIn, matchesAt]
    | cons p ps =>
      rw [List.cons_append]
      unfold occursIn
      rw [show p :: (ps ++ suf) = (p :: ps) ++ suf from rfl, matchesAt_append]
      simp
  | cons x xs ih =>
    rw [List.cons_append]
    unfold occursIn
    rw [ih]
    simp

theorem strOccurs_split (a pat b : String) : strOccurs pat (a ++ (pat ++ b)) = true := by
  unfold strOccurs
  rw [String.data_append, String.data_append]
  exact occursIn_split a.data pat.data b.data

/-!  Concrete records used by witnesses and counterexamples. -/

/-- Sample record: master TCP 80. -/
def recTCP80 : ComDetails :=
  { Direction := "Ingress", Protocol := "TCP", Port := 80, Namespace := "ns",
    Service := "svc", Pod := "pod-a", Container := "con", NodeRole := "master", Optional := false }

/-- Sample record: master UDP 53. -/
def recUDP53 : ComDetails :=
  { Direction := "Ingress", Protocol := "UDP", Port := 53, Namespace := "ns",
    Service := "dns", Pod := "pod-b", Container := "con", NodeRole := "master", Optional := false }

/-- Sample record: master TCP 22 (A side). -/
def rec22 : ComDetails :=
  { Direction := "Ingress", Protocol := "TCP", Port := 22, Namespace := "ns",
    Service := "sshd", Pod := "pod-a", Container := "con", NodeRole := "master", Optional := false }

/-- Sample record with the same `(nodeRole, port, protocol)` identity as
`rec22` but a different pod (B side). -/
def rec22B : ComDetails :=
  { Direction := "Ingress", Protocol := "TCP", Port := 22, Namespace := "ns",
    Service := "sshd", Pod := "pod-z", Container := "con", NodeRole := "master", Optional := false }

/-- Sample record: master TCP 6443. -/
def rec6443 : ComDetails :=
  { Direction := "Ingress", Protocol := "TCP", Port := 6443, Namespace := "ns",
    Service := "api", Pod := "pod-b", Container := "con", NodeRole := "master", Optional := false }

/-- Sample record: master TCP 9999. -/
def rec9999 : ComDetails :=
  { Direction := "Ingress", Protocol := "TCP", Port := 9999, Namespace := "ns",
    Service := "stray", Pod := "pod-c", Container := "con", NodeRole := "master", Optional := false }

/-- Sample record whose service is the suppressed `rpc.statd`. -/
def recStatd : ComDetails :=
  { Direction := "Ingress", Protocol := "TCP", Port := 100, Namespace := "ns",
    Service := "rpc.statd", Pod := "pod-d", Container := "con", NodeRole := "master", Optional := false }

/-- Record whose identity key collides with `recDash2` because the node role
contains the `-` separator: both format to `a-1-2-p`. -/
def recDash1 : ComDetails :=
  { Direction := "Ingress", Protocol := "p", Port := 2, Namespace := "ns",
    Service := "svc", Pod := "pod-e", Container := "con", NodeRole := "a-1", Optional := false }

/-- Record whose identity key collides with `recDash1` though all three
identity fields differ. -/
def recDash2 : ComDetails :=
  { Direction := "Ingress", Protocol := "2-p", Port := 1, Namespace := "ns",
    Service := "svc", Pod := "pod-f", Container := "con", NodeRole := "a", Optional := false }

/-- Record with service `rpc.statd` whose full `String()` rendering collides
with `recStatdColl2` because the pod field starts with a comma. -/
def recStatdColl1 : ComDetails :=
  { Direction := "Ingress", Protocol := "TCP", Port := 80, Namespace := "n",
    Service := "rpc.statd", Pod := ",x", Container := "con", NodeRole := "master", Optional := false }

/-- Record without the `rpc.statd` service whose full `String()` rendering
equals that of `recStatdColl1` (the comma in the namespace shifts the
fields). -/
def recStatdColl2 : ComDetails :=
  { Direction := "Ingress", Protocol := "TCP", Port := 80, Namespace := "n,rpc.statd",
    Service := "", Pod := "x", Container := "con", NodeRole := "master", Optional := false }

/-- C2 (amended): `Equals` returns true iff the two formatted identity key
strings `nodeRole-port-protocol` coincide; in particular agreement on all
three identity fields implies `Equals`, and no field outside the key affects
the result.  The converse of the claim fails when fields contain the `-`
separator (see the counterexample). -/
theorem C2_equals_key (cd1 cd2 : ComDetails) :
    (cd1.Equals cd2 = true ↔ cdKey cd1 = cdKey cd2) ∧
    (cd1.NodeRole = cd2.NodeRole → cd1.Port = cd2.Port → cd1.Protocol = cd2.Protocol →
      cd1.Equals cd2 = true) := by
  refine ⟨Equals_iff_key cd1 cd2, fun h1 h2 h3 => ?_⟩
  refine (Equals_iff_key cd1 cd2).mpr ?_
  unfold cdKey
  rw [h1, h2, h3]

/-- Witness for C2 at two records sharing the identity triple. -/
theorem C2_equals_key_witness :
    rec22.NodeRole = rec22B.NodeRole ∧ rec22.Port = rec22B.Port ∧
      rec22.Protocol = rec22B.Protocol ∧ ComDetails.Equals rec22 rec22B = true :=
  ⟨by decide, by decide, by decide,
    (C2_equals_key rec22 rec22B).2 (by decide) (by decide) (by decide)⟩

/-- Counterexample to C2 as stated: `Equals` holds between two records none of
whose identity fields agree (`a-1`/2/`p` versus `a`/1/`2-p`, both keys format
to `"a-1-2-p"`). -/
theorem C2_equals_key_counterexample :
    ComDetails.Equals recDash1 recDash2 = true ∧
      recDash1.NodeRole ≠ recDash2.NodeRole ∧ recDash1.Port ≠ recDash2.Port ∧
      recDash1.Protocol ≠ recDash2.Protocol := by
  refine ⟨by decide, by decide, by decide, by decide⟩

/-- C5 (amended): `print` succeeds exactly for the format tags `json`, `csv`,
`yaml` and `nft` (the code's tag for the firewall format is `"nft"`, not
`"nft-firewall"`), and any other tag yields the explicit `invalid format`
error. -/
theorem C5_print_closed_set (m : ComMatrix) (format : String) :
    ((∃ out, m.print format = Except.ok out) ↔
      format ∈ (["json", "csv", "yaml", "nft"] : List String)) ∧
    (format ∉ (["json", "csv", "yaml", "nft"] : List String) →
      m.print format =
        Except.error ("invalid format: " ++ format ++ ". Please specify json, csv, yaml, or nft")) := by
  have hjson : ∃ s, m.ToJSON = Except.ok s := by
    unfold ComMatrix.ToJSON
    by_cases h : m.Matrix = []
    · rw [if_pos h]; exact ⟨_, rfl⟩
    · rw [if_neg h]; exact ⟨_, rfl⟩
  have hyaml : ∃ s, m.ToYAML = Except.ok s := by
    unfold ComMatrix.ToYAML
    by_cases h : m.Matrix = []
    · rw [if_pos h]; exact ⟨_, rfl⟩
    · rw [if_neg h]; exact ⟨_, rfl⟩
  have herr : format ∉ (["json", "csv", "yaml", "nft"] : List String) →
      m.print format =
        Except.error ("invalid format: " ++ format ++ ". Please specify json, csv, yaml, or nft") := by
    intro hnot
    simp only [List.mem_cons, List.not_mem_nil, or_false, not_or] at hnot
    obtain ⟨h1, h2, h3, h4⟩ := hnot
    unfold ComMatrix.print
    rw [if_neg h1, if_neg h2, if_neg h3, if_neg h4]
  refine ⟨⟨?_, ?_⟩, herr⟩
  · rintro ⟨out, hout⟩
    by_contra hnot
    rw [herr hnot] at hout
    exact Except.noConfusion hout
  · intro hmem
    simp only [List.mem_cons, List.not_mem_nil, or_false] at hmem
    unfold ComMatrix.print
    rcases hmem with h | h | h | h
    · rw [if_pos h]; exact hjson
    · rw [if_neg (by rw [h]; decide), if_pos h]; exact ⟨_, rfl⟩
    · rw [if_neg (by rw [h]; decide), if_neg (by rw [h]; decide), if_pos h]; exact hyaml
    · rw [if_neg (by rw [h]; decide), if_neg (by rw [h]; decide), if_neg (by rw [h]; decide),
        if_pos h]
      exact ⟨_, rfl⟩

/-- Witness for C5 at an unsupported tag. -/
theorem C5_print_closed_set_witness :
    ("xml" ∉ (["json", "csv", "yaml", "nft"] : List String)) ∧
      ComMatrix.print ⟨[]⟩ "xml" =
        Except.error "invalid format: xml. Please specify json, csv, yaml, or nft" :=
  ⟨by decide, (C5_print_closed_set ⟨[]⟩ "xml").2 (by decide)⟩

set_option maxRecDepth 100000 in
/-- Counterexample to C5 as stated: the literal tag `nft-firewall` is rejected
while the tag `nft`, outside the claim's set, succeeds. -/
theorem C5_print_closed_set_counterexample :
    ComMatrix.print ⟨[]⟩ "nft-firewall" =
      Except.error "invalid format: nft-firewall. Please specify json, csv, yaml, or nft" ∧
    ComMatrix.print ⟨[]⟩ "nft" =
      Except.ok (nftTemplatePre ++ "" ++ nftTemplateMid ++ "" ++ nftTemplateSuf) ∧
    "nft" ∉ (["csv", "json", "yaml", "nft-firewall"] : List String) := by
  refine ⟨by decide, by decide, by decide⟩

/-- C10: the nft exporter never returns an error, and a record contributes its
port to the TCP (resp. UDP) list exactly when its protocol is the exact string
`"TCP"` (resp. `"UDP"`), in matrix order; all other protocol spellings are
omitted. -/
theorem C10_nftables_total (m : ComMatrix) :
    m.ToNFTables = Except.ok
      (nftTemplatePre ++
        String.intercalate ", "
          ((m.Matrix.filter (fun cd => cd.Protocol == "TCP")).map (fun cd => toString cd.Port)) ++
        nftTemplateMid ++
        String.intercalate ", "
          ((m.Matrix.filter (fun cd => cd.Protocol == "UDP")).map (fun cd => toString cd.Port)) ++
        nftTemplateSuf) := by
  unfold ComMatrix.ToNFTables nftPortLists
  rw [nftLoop_acc]
  simp

/-- C8: normalization (`CleanComDetails`, i.e. dedupe then sort) is
idempotent: applying it twice yields the same matrix, records and order. -/
theorem C8_normalize_idempotent (m : ComMatrix) :
    (m.CleanComDetails).CleanComDetails = m.CleanComDetails := by
  unfold ComMatrix.CleanComDetails ComMatrix.sort ComMatrix.deleteDuplicates
  have hd : keyDistinct (dedupFrom [] m.Matrix) := dedupFrom_keyDistinct [] m.Matrix
  have hs : keyDistinct (sortList (dedupFrom [] m.Matrix)) :=
    keyDistinct_of_perm (sortList_perm (dedupFrom [] m.Matrix)).symm hd
  have h1 : dedupFrom [] (sortList (dedupFrom [] m.Matrix)) = sortList (dedupFrom [] m.Matrix) :=
    dedupFrom_of_keyDistinct [] _ hs (fun r _ => rfl)
  have h2 : sortList (sortList (dedupFrom [] m.Matrix)) = sortList (dedupFrom [] m.Matrix) :=
    sortList_of_pairwise (sortList_pairwise (dedupFrom [] m.Matrix))
  simp only [h1, h2]

/-- C1 (amended): `combine` returns a sorted permutation of A's records plus
those records of B whose identity key (as compared by `Equals`) does not occur
in A; and when neither input contains two records sharing an identity key, the
result is free of identity duplicates.  The unconditional freedom from
duplicates stated by the claim fails when A (or B) itself contains duplicates
(see the counterexample). -/
theorem C1_combine_spec (A B : ComMatrix) :
    (A.combine B).Matrix.Perm
      (A.Matrix ++ B.Matrix.filter (fun cd => !(A.Contains cd))) ∧
    (A.combine B).Matrix.Pairwise (fun a b => compareCD a b ≤ 0) ∧
    (keyDistinct A.Matrix → keyDistinct B.Matrix → keyDistinct (A.combine B).Matrix) := by
  refine ⟨?_, ?_, ?_⟩
  · rw [combine_def]
    exact sortList_perm _
  · rw [combine_def]
    exact sortList_sorted _
  · intro hA hB
    rw [combine_def]
    refine keyDistinct_of_perm (sortList_perm _).symm ?_
    refine List.pairwise_append.mpr ⟨hA, List.Pairwise.filter _ hB, ?_⟩
    intro a ha b hb
    obtain ⟨hbB, hpred⟩ := List.mem_filter.mp hb
    have hnc : A.Contains b = false := by
      rcases Bool.eq_false_or_eq_true (A.Contains b) with h | h
      · rw [h] at hpred; exact absurd hpred (by decide)
      · exact h
    intro hkey
    have : A.Contains b = true := (Contains_iff A b).mpr ⟨a, ha, hkey⟩
    rw [hnc] at this
    exact Bool.false_ne_true this

/-- Witness for C1 at the two duplicate-free matrices of the spec's concrete
scenario. -/
theorem C1_combine_spec_witness :
    keyDistinct [rec22, rec6443] ∧ keyDistinct [rec22B, rec9999] ∧
      keyDistinct (ComMatrix.combine ⟨[rec22, rec6443]⟩ ⟨[rec22B, rec9999]⟩).Matrix :=
  ⟨by decide, by decide,
    (C1_combine_spec ⟨[rec22, rec6443]⟩ ⟨[rec22B, rec9999]⟩).2.2 (by decide) (by decide)⟩

/-- Counterexample to C1 as stated: when A itself contains two records with
the same identity, `combine` keeps both, so the result is not free of identity
duplicates. -/
theorem C1_combine_spec_counterexample :
    (ComMatrix.combine ⟨[recTCP80, recTCP80]⟩ ⟨[]⟩).Matrix = [recTCP80, recTCP80] ∧
      ¬ keyDistinct (ComMatrix.combine ⟨[recTCP80, recTCP80]⟩ ⟨[]⟩).Matrix := by
  have h1 : (ComMatrix.combine ⟨[recTCP80, recTCP80]⟩ ⟨[]⟩).Matrix = [recTCP80, recTCP80] := by
    rw [combine_def]
    have h2 : ([recTCP80, recTCP80] : List ComDetails) ++
        List.filter (fun cd => !(ComMatrix.Contains ⟨[recTCP80, recTCP80]⟩ cd)) [] =
        [recTCP80, recTCP80] := rfl
    rw [h2]
    refine sortList_of_pairwise ?_
    refine List.pairwise_cons.mpr ⟨?_, List.pairwise_singleton _ _⟩
    intro b hb
    rw [List.mem_singleton.mp hb]
    decide
  refine ⟨h1, fun hkd => ?_⟩
  rw [h1] at hkd
  exact absurd hkd (by decide)

/-- C7 (amended): after `CleanComDetails` (dedupe then sort), for each
identity key present in the input there is exactly one retained record, and it
is the first record of the input carrying that key (the record that `find?`
returns).  For the identity understood as the `(nodeRole, port, protocol)`
triple the claim fails when distinct triples collide on the formatted key (see
the counterexample). -/
theorem C7_normalize_first_wins (m : ComMatrix) (r : ComDetails) (hr : r ∈ m.Matrix) :
    ∃ f, m.Matrix.find? (fun c => cdKey c == cdKey r) = some f ∧
      (m.CleanComDetails).Matrix.filter (fun c => cdKey c == cdKey r) = [f] := by
  have hsome : (m.Matrix.find? (fun c => cdKey c == cdKey r)).isSome := by
    rw [List.find?_isSome]
    exact ⟨r, hr, beq_self_eq_true (cdKey r)⟩
  obtain ⟨f, hf⟩ := Option.isSome_iff_exists.mp hsome
  refine ⟨f, hf, ?_⟩
  have hdf : (dedupFrom [] m.Matrix).filter (fun c => cdKey c == cdKey r) = [f] := by
    rw [dedupFrom_filter_key [] m.Matrix (cdKey r) rfl, hf]
  have hperm : ((m.CleanComDetails).Matrix.filter (fun c => cdKey c == cdKey r)).Perm [f] := by
    unfold ComMatrix.CleanComDetails ComMatrix.sort ComMatrix.deleteDuplicates
    rw [← hdf]
    exact List.Perm.filter _ (sortList_perm (dedupFrom [] m.Matrix))
  exact List.perm_singleton.mp hperm

/-- Witness for C7: the identity of `rec22B` occurs twice in the input; the
retained record is the first one, `rec22`. -/
theorem C7_normalize_first_wins_witness :
    rec22B ∈ ([rec22, rec22B, rec9999] : List ComDetails) ∧
      ∃ f, ([rec22, rec22B, rec9999] : List ComDetails).find? (fun c => cdKey c == cdKey rec22B) = some f ∧
        (ComMatrix.CleanComDetails ⟨[rec22, rec22B, rec9999]⟩).Matrix.filter
          (fun c => cdKey c == cdKey rec22B) = [f] :=
  ⟨by decide, C7_normalize_first_wins ⟨[rec22, rec22B, rec9999]⟩ rec22B (by decide)⟩

/-- Counterexample to C7 as stated: `recDash2`'s identity triple occurs in the
input, but normalization retains no record with that triple — `recDash2` is
deleted as a duplicate of `recDash1`, whose triple is different but whose
formatted key is the same. -/
theorem C7_normalize_first_wins_counterexample :
    (ComMatrix.CleanComDetails ⟨[recDash1, recDash2]⟩).Matrix = [recDash1] ∧
      (recDash1.NodeRole, recDash1.Port, recDash1.Protocol) ≠
        (recDash2.NodeRole, recDash2.Port, recDash2.Protocol) := by
  constructor
  · unfold ComMatrix.CleanComDetails ComMatrix.sort ComMatrix.deleteDuplicates
    have hd : dedupFrom [] [recDash1, recDash2] = [recDash1] := by decide
    rw [hd]
    exact sortList_of_pairwise (List.pairwise_singleton _ _)
  · decide

/-- C3 (amended): the diff report is the CSV header followed by one line per
record of `Combine(A,B)`; every record's sign is exactly one of `1` (`+`),
`-1` (`-`) or `0` (unmarked); and — provided no two distinct records of the
inputs share a full `String()` rendering — the unmarked records are exactly
those in the identity-intersection of A and B **together with** the records
present only in B whose service is `rpc.statd` (the suppression makes such
records appear unmarked, not absent, so the claim's equality with the plain
intersection fails; see the counterexample). -/
theorem C3_diff_marks (A B : ComMatrix)
    (hinj : ∀ c1 ∈ A.Matrix ++ B.Matrix, ∀ c2 ∈ A.Matrix ++ B.Matrix,
      cdString c1 = cdString c2 → c1 = c2) :
    A.GenerateMatrixDiff B = Except.ok
      ("Direction,Protocol,Port,Namespace,Service,Pod,Container,Node Role,Optional" ++ "\n" ++
        String.join ((A.combine B).Matrix.map (diffLine A B))) ∧
    ∀ cd ∈ (A.combine B).Matrix,
      (diffSign A B cd = 1 ∨ diffSign A B cd = -1 ∨ diffSign A B cd = 0) ∧
      (diffSign A B cd = 0 ↔
        ((A.Contains cd = true ∧ B.Contains cd = true) ∨
          (A.Contains cd = false ∧ cd.Service = "rpc.statd"))) := by
  constructor
  · rfl
  · intro cd hcd
    rw [combine_def] at hcd
    have hmem : cd ∈ A.Matrix ++ B.Matrix.filter (fun cd => !(A.Contains cd)) :=
      (sortList_perm _).mem_iff.mp hcd
    refine ⟨diffSign_values A B cd, ?_⟩
    unfold diffSign ComMatrix.markDiffBetweenMatrices mapGetD
    rcases List.mem_append.mp hmem with hA | hBf
    · have hContA : A.Contains cd = true :=
        List.any_eq_true.mpr ⟨cd, hA, Equals_refl cd⟩
      have hno2 : ∀ c ∈ B.Matrix, cdString c = cdString cd →
          c.Service = "rpc.statd" ∨ A.Contains c = true := by
        intro c hc hs
        have hccd : c = cd :=
          hinj c (List.mem_append.mpr (Or.inr hc)) cd (List.mem_append.mpr (Or.inl hA)) hs
        subst hccd
        exact Or.inr hContA
      rw [markLoop2_none A B.Matrix _ _ hno2]
      rw [markLoop1_mem B A.Matrix _ cd
        (fun c1 h1 c2 h2 => hinj c1 (List.mem_append.mpr (Or.inl h1))
          c2 (List.mem_append.mpr (Or.inl h2))) hA]
      by_cases hB : B.Contains cd = true
      · rw [if_pos hB]
        simp [hContA, hB]
      · rw [if_neg hB]
        have hBf2 : B.Contains cd = false := Bool.of_not_eq_true hB
        simp [hContA, hBf2]
    · obtain ⟨hBmem, hpred⟩ := List.mem_filter.mp hBf
      have hContA : A.Contains cd = false := by
        rcases Bool.eq_false_or_eq_true (A.Contains cd) with h | h
        · rw [h] at hpred; exact absurd hpred (by decide)
        · exact h
      by_cases hsvc : cd.Service = "rpc.statd"
      · have hno2 : ∀ c ∈ B.Matrix, cdString c = cdString cd →
            c.Service = "rpc.statd" ∨ A.Contains c = true := by
          intro c hc hs
          have hccd : c = cd :=
            hinj c (List.mem_append.mpr (Or.inr hc)) cd (List.mem_append.mpr (Or.inr hBmem)) hs
          subst hccd
          exact Or.inl hsvc
        rw [markLoop2_none A B.Matrix _ _ hno2]
        have hno1 : ∀ c ∈ A.Matrix, cdString c ≠ cdString cd := by
          intro c hc hs
          have hccd : c = cd :=
            hinj c (List.mem_append.mpr (Or.inl hc)) cd (List.mem_append.mpr (Or.inr hBmem)) hs
          subst hccd
          have : A.Contains c = true := List.any_eq_true.mpr ⟨c, hc, Equals_refl c⟩
          rw [hContA] at this
          exact Bool.false_ne_true this
        rw [markLoop1_none B A.Matrix _ _ hno1]
        simp [hContA, hsvc]
      · have hhit : ∃ c ∈ B.Matrix, cdString c = cdString cd ∧ c.Service ≠ "rpc.statd" ∧
            A.Contains c = false := ⟨cd, hBmem, rfl, hsvc, hContA⟩
        rw [markLoop2_hit A B.Matrix _ _ hhit]
        simp [hContA, hsvc]

/-- Witness for C3 at the spec's concrete scenario (`6443` is present only in
A and gets sign `1`, i.e. the `+` mark). -/
theorem C3_diff_marks_witness :
    (diffSign ⟨[rec22, rec6443]⟩ ⟨[rec22B, rec9999]⟩ rec6443 = 1 ∨
      diffSign ⟨[rec22, rec6443]⟩ ⟨[rec22B, rec9999]⟩ rec6443 = -1 ∨
      diffSign ⟨[rec22, rec6443]⟩ ⟨[rec22B, rec9999]⟩ rec6443 = 0) ∧
    (diffSign ⟨[rec22, rec6443]⟩ ⟨[rec22B, rec9999]⟩ rec6443 = 0 ↔
      ((ComMatrix.Contains ⟨[rec22, rec6443]⟩ rec6443 = true ∧
          ComMatrix.Contains ⟨[rec22B, rec9999]⟩ rec6443 = true) ∨
        (ComMatrix.Contains ⟨[rec22, rec6443]⟩ rec6443 = false ∧
          rec6443.Service = "rpc.statd"))) :=
  (C3_diff_marks ⟨[rec22, rec6443]⟩ ⟨[rec22B, rec9999]⟩ (by decide)).2 rec6443
    (by rw [combine_def]; exact (sortList_perm _).mem_iff.mpr (by decide))

/-- Counterexample to C3 as stated: an `rpc.statd` record present only in B is
unmarked (sign `0`) in the report although it is not in the
identity-intersection of A and B. -/
theorem C3_diff_marks_counterexample :
    diffSign ⟨[]⟩ ⟨[recStatd]⟩ recStatd = 0 ∧
      ComMatrix.Contains ⟨[]⟩ recStatd = false ∧
      recStatd ∈ (ComMatrix.combine ⟨[]⟩ ⟨[recStatd]⟩).Matrix := by
  refine ⟨by decide, by decide, ?_⟩
  rw [combine_def]
  exact (sortList_perm _).mem_iff.mpr (by decide)

/-- C9 (amended): a record with service `rpc.statd` that appears (by identity)
only in B is never assigned the `-` sign, provided no other record of B shares
its full `String()` rendering; its diff line is the `+`-prefixed or the bare
one.  Without that proviso a colliding record can overwrite the sign map entry
(see the counterexample). -/
theorem C9_statd_suppressed (A B : ComMatrix) (r : ComDetails)
    (_hrB : r ∈ B.Matrix) (_hsvc : r.Service = "rpc.statd") (_hA : A.Contains r = false)
    (hcoll : ∀ c ∈ B.Matrix, cdString c = cdString r → c.Service = "rpc.statd") :
    diffSign A B r ≠ -1 ∧
      (diffLine A B r = "+ " ++ cdString r ++ "\n" ∨ diffLine A B r = cdString r ++ "\n") := by
  have hs2 : (A.markDiffBetweenMatrices B) (cdString r) =
      markLoop1 B (fun _ => none) A.Matrix (cdString r) := by
    unfold ComMatrix.markDiffBetweenMatrices
    exact markLoop2_none A B.Matrix _ _ (fun c hc hstr => Or.inl (hcoll c hc hstr))
  have h1v := markLoop1_values B A.Matrix (fun _ => none) (cdString r) (fun _ => Or.inl rfl)
  have hsign : diffSign A B r = 0 ∨ diffSign A B r = 1 := by
    unfold diffSign mapGetD
    rw [hs2]
    rcases h1v with h | h | h <;> rw [h] <;> simp
  constructor
  · rcases hsign with h | h <;> rw [h] <;> decide
  · rcases hsign with h | h
    · right
      unfold diffLine
      rw [h]
      rfl
    · left
      unfold diffLine
      rw [h]
      rfl

/-- Witness for C9: a plain `rpc.statd` record present only in B keeps an
unmarked (or `+`) line. -/
theorem C9_statd_suppressed_witness :
    diffSign ⟨[rec22]⟩ ⟨[recStatd]⟩ recStatd ≠ -1 ∧
      (diffLine ⟨[rec22]⟩ ⟨[recStatd]⟩ recStatd = "+ " ++ cdString recStatd ++ "\n" ∨
        diffLine ⟨[rec22]⟩ ⟨[recStatd]⟩ recStatd = cdString recStatd ++ "\n") :=
  C9_statd_suppressed ⟨[rec22]⟩ ⟨[recStatd]⟩ recStatd (by decide) (by decide) (by decide)
    (by decide)

/-- Counterexample to C9 as stated: `recStatdColl1` has service `rpc.statd`
and is present (by identity) only in B, yet its line in the diff report is the
`-`-prefixed one, because `recStatdColl2` (service not `rpc.statd`) has the
same full `String()` rendering and writes `-1` under the shared key. -/
theorem C9_statd_suppressed_counterexample :
    recStatdColl1.Service = "rpc.statd" ∧
      ComMatrix.Contains ⟨[]⟩ recStatdColl1 = false ∧
      recStatdColl1 ∈ (ComMatrix.combine ⟨[]⟩ ⟨[recStatdColl1, recStatdColl2]⟩).Matrix ∧
      diffSign ⟨[]⟩ ⟨[recStatdColl1, recStatdColl2]⟩ recStatdColl1 = -1 ∧
      diffLine ⟨[]⟩ ⟨[recStatdColl1, recStatdColl2]⟩ recStatdColl1 =
        "- " ++ cdString recStatdColl1 ++ "\n" := by
  refine ⟨by decide, by decide, ?_, by decide, by decide⟩
  rw [combine_def]
  exact (sortList_perm _).mem_iff.mpr (by decide)

set_option maxRecDepth 100000 in
/-- C6 (amended): exporting a matrix whose TCP port list is exactly `[80]` and
whose UDP port list is exactly `[53]` to the nft format produces rule text
containing `udp dport { 53 }` verbatim and `tcp dport  { 80 }` with **two**
spaces after `dport` (the template line is `tcp dport  { %s } accept`); the
single-spaced `tcp dport { 80 }` demanded by the claim does not occur (see the
counterexample). -/
theorem C6_nft_scenario (m : ComMatrix)
    (htcp : (m.Matrix.filter (fun cd => cd.Protocol == "TCP")).map (fun cd => toString cd.Port) =
      ["80"])
    (hudp : (m.Matrix.filter (fun cd => cd.Protocol == "UDP")).map (fun cd => toString cd.Port) =
      ["53"]) :
    m.ToNFTables =
      Except.ok (nftTemplatePre ++ "80" ++ nftTemplateMid ++ "53" ++ nftTemplateSuf) ∧
    strOccurs "tcp dport  \x7b 80 \x7d"
      (nftTemplatePre ++ "80" ++ nftTemplateMid ++ "53" ++ nftTemplateSuf) = true ∧
    strOccurs "udp dport \x7b 53 \x7d"
      (nftTemplatePre ++ "80" ++ nftTemplateMid ++ "53" ++ nftTemplateSuf) = true := by
  refine ⟨?_, by decide, by decide⟩
  unfold ComMatrix.ToNFTables nftPortLists
  rw [nftLoop_acc]
  dsimp only
  rw [List.nil_append, List.nil_append, htcp, hudp]
  rfl

set_option maxRecDepth 100000 in
/-- Witness for C6 at the two-record matrix `[TCP/80, UDP/53]`. -/
theorem C6_nft_scenario_witness :
    (([recTCP80, recUDP53].filter (fun cd => cd.Protocol == "TCP")).map
        (fun cd => toString cd.Port) = ["80"]) ∧
    (([recTCP80, recUDP53].filter (fun cd => cd.Protocol == "UDP")).map
        (fun cd => toString cd.Port) = ["53"]) ∧
    ComMatrix.ToNFTables ⟨[recTCP80, recUDP53]⟩ =
      Except.ok (nftTemplatePre ++ "80" ++ nftTemplateMid ++ "53" ++ nftTemplateSuf) :=
  ⟨by decide, by decide,
    (C6_nft_scenario ⟨[recTCP80, recUDP53]⟩ (by decide) (by decide)).1⟩

set_option maxRecDepth 100000 in
/-- Counterexample to C6 as stated: the single-spaced substring
`tcp dport { 80 }` does not occur in the rule text produced for the
`[TCP/80, UDP/53]` matrix. -/
theorem C6_nft_scenario_counterexample :
    ComMatrix.ToNFTables ⟨[recTCP80, recUDP53]⟩ =
      Except.ok (nftTemplatePre ++ "80" ++ nftTemplateMid ++ "53" ++ nftTemplateSuf) ∧
    strOccurs "tcp dport \x7b 80 \x7d"
      (nftTemplatePre ++ "80" ++ nftTemplateMid ++ "53" ++ nftTemplateSuf) = false := by
  refine ⟨by decide, by decide⟩

/-- Record used by the sort-stability failing input: all records share the
node role `master` and the protocol `TCP`, so the comparator distinguishes
them only by port; the pod name tags the original position. -/
def tieCD (port : Int) (pod : String) : ComDetails :=
  { Direction := "Ingress", Protocol := "TCP", Port := port, Namespace := "ns",
    Service := "svc", Pod := pod, Container := "con", NodeRole := "master", Optional := false }

/-- Failing input for the sort-stability claim: 13 records (just above the
insertion-sort threshold of Go's pdqsort), seven of them tied at port 3. -/
def sortFuncInput : List ComDetails :=
  [tieCD 3 "p0", tieCD 3 "p1", tieCD 3 "p2", tieCD 3 "p3", tieCD 3 "p4", tieCD 3 "p5",
   tieCD 3 "p6", tieCD 1 "p7", tieCD 2 "p8", tieCD 9 "p9", tieCD 9 "p10", tieCD 9 "p11",
   tieCD 9 "p12"]

/-- Result of Go's `slices.SortFunc` (exact pdqsort embedding) on
`sortFuncInput` with the comparator of `ComMatrix.sort`. -/
def sortFuncOutput : List ComDetails :=
  (goSortFunc compareCD (Array.mk sortFuncInput)).toList

set_option maxRecDepth 1000000 in
/-- C4: evaluation of the embedded `slices.SortFunc` algorithm at
`sortFuncInput`.  The output is a permutation of the input, ordered ascending
by `(nodeRole, protocol, port)` — but it is **not stable**: the tied records
`tieCD 3 "p0"` and `tieCD 3 "p6"` compare equal, appear in this order in the
input, and appear in the opposite order in the output.  This refutes the
stability asserted by the claim (Go documents `slices.SortFunc` as not
guaranteed to be stable; the stable variant `slices.SortStableFunc` is not the
one the code calls). -/
theorem C4_sortFunc_not_stable :
    chainLE sortFuncOutput = true ∧
    sortFuncOutput.Perm sortFuncInput ∧
    compareCD (tieCD 3 "p0") (tieCD 3 "p6") = 0 ∧
    tieCD 3 "p0" ≠ tieCD 3 "p6" ∧
    List.indexOf (tieCD 3 "p0") sortFuncInput < List.indexOf (tieCD 3 "p6") sortFuncInput ∧
    List.indexOf (tieCD 3 "p6") sortFuncOutput < List.indexOf (tieCD 3 "p0") sortFuncOutput := by
  refine ⟨by decide, by decide, by decide, by decide, by decide, by decide⟩
